import Mathlib

/-!
Verification development for the Fanorona game repository (`code/game.py` and the
rule-engine / agent modules it imports).

The UI layer (`game.py`) is embedded directly from its source.  The rule engine
(`state.py`, move classes) is not part of the available sources, so it is
modelled from the specification text, as marked on each such definition.
-/

set_option maxHeartbeats 1000000

/-- Modelled from the spec: the `Player` enum of the missing `player.py`
(`game.py` uses `Player.EMPTY`, `Player.WHITE`, `Player.BLACK`); a Cell is one
of Empty, Side A (white), Side B (black). -/
inductive Player where
  | EMPTY
  | WHITE
  | BLACK
deriving DecidableEq, Repr, Fintype

/-- Modelled from the spec: the opposing side; `EMPTY` has no opponent. -/
def Player.other : Player → Player
  | .WHITE => .BLACK
  | .BLACK => .WHITE
  | .EMPTY => .EMPTY

theorem Player.other_ne_empty {p : Player} (h : p ≠ .EMPTY) : p.other ≠ .EMPTY := by
  cases p <;> simp_all [Player.other]

theorem Player.other_ne_self {p : Player} (h : p ≠ .EMPTY) : p.other ≠ p := by
  cases p <;> simp_all [Player.other]

/-- Modelled from the spec: the board of the missing `state.py` — a fixed-size
rectangular grid of cells, stored as a list of rows. -/
structure Board where
  width : Nat
  height : Nat
  cells : List (List Player)
deriving DecidableEq, Repr

/-- Cell lookup; coordinates outside the grid read as `EMPTY`. -/
def Board.get (b : Board) (r c : Int) : Player :=
  if 0 ≤ r ∧ 0 ≤ c then (b.cells.getD r.toNat []).getD c.toNat Player.EMPTY
  else Player.EMPTY

/-- On-grid test for a coordinate pair. -/
def Board.inBounds (b : Board) (r c : Int) : Bool :=
  decide (0 ≤ r) && decide (0 ≤ c) && decide (r.toNat < b.cells.length) &&
    decide (c.toNat < (b.cells.getD r.toNat []).length)

/-- Cell update; writes outside the grid leave the board unchanged. -/
def Board.set (b : Board) (r c : Int) (p : Player) : Board :=
  if 0 ≤ r ∧ 0 ≤ c then
    { b with cells := b.cells.set r.toNat ((b.cells.getD r.toNat []).set c.toNat p) }
  else b

/-- The stored rows actually form a `height × width` grid. -/
def Board.Shaped (b : Board) : Prop :=
  b.cells.length = b.height ∧ ∀ row ∈ b.cells, row.length = b.width

instance (b : Board) : Decidable b.Shaped := by
  unfold Board.Shaped
  infer_instance

theorem list_set_getD_self {α : Type _} (l : List α) (i : Nat) (d : α) :
    l.set i (l.getD i d) = l ∨ l.length ≤ i := by
  induction l generalizing i with
  | nil => right; simp
  | cons x xs ih =>
    cases i with
    | zero => left; simp [List.getD]
    | succ n =>
      rcases ih n with h | h
      · left; simpa [List.getD] using h
      · right; simpa using h

theorem Board.get_ne_empty_inBounds {b : Board} {r c : Int}
    (h : b.get r c ≠ .EMPTY) : b.inBounds r c = true := by
  unfold Board.get at h
  by_cases hrc : 0 ≤ r ∧ 0 ≤ c
  · rw [if_pos hrc] at h
    have hr : r.toNat < b.cells.length := by
      by_contra hge
      rw [List.getD_eq_default _ _ (Nat.le_of_not_lt hge)] at h
      simp [List.getD] at h
    have hc : c.toNat < (b.cells.getD r.toNat []).length := by
      by_contra hge
      rw [List.getD_eq_default _ _ (Nat.le_of_not_lt hge)] at h
      exact h rfl
    unfold Board.inBounds
    simp only [Bool.and_eq_true, decide_eq_true_eq]
    exact ⟨⟨⟨hrc.1, hrc.2⟩, hr⟩, hc⟩
  · exact absurd (if_neg hrc) h

theorem Board.set_of_not_inBounds {b : Board} {r c : Int} {p : Player}
    (h : b.inBounds r c = false) : b.set r c p = b := by
  unfold Board.set
  by_cases hrc : 0 ≤ r ∧ 0 ≤ c
  · rw [if_pos hrc]
    by_cases hr : r.toNat < b.cells.length
    · by_cases hcn : c.toNat < (b.cells.getD r.toNat []).length
      · have hib : b.inBounds r c = true := by
          unfold Board.inBounds
          simp only [Bool.and_eq_true, decide_eq_true_eq]
          exact ⟨⟨⟨hrc.1, hrc.2⟩, hr⟩, hcn⟩
        rw [hib] at h
        simp at h
      · rw [List.set_eq_of_length_le (Nat.le_of_not_lt hcn)]
        rcases list_set_getD_self b.cells r.toNat [] with hs | hs
        · rw [hs]
        · omega
    · rw [List.set_eq_of_length_le (Nat.le_of_not_lt hr)]
  · rw [if_neg hrc]

theorem Board.get_set_same {b : Board} {r c : Int} {p : Player}
    (h : b.inBounds r c = true) : (b.set r c p).get r c = p := by
  unfold Board.inBounds at h
  simp only [Bool.and_eq_true, decide_eq_true_eq] at h
  obtain ⟨⟨⟨hr, hc⟩, hrn⟩, hcn⟩ := h
  unfold Board.set Board.get
  rw [if_pos ⟨hr, hc⟩, if_pos ⟨hr, hc⟩]
  dsimp only
  simp only [List.getD_eq_getElem?_getD] at hcn ⊢
  rw [List.getElem?_set_self hrn, Option.getD_some,
    List.getElem?_set_self hcn, Option.getD_some]

theorem Board.get_set_ne {b : Board} {r c r' c' : Int} {p : Player}
    (h : (r', c') ≠ (r, c)) : (b.set r c p).get r' c' = b.get r' c' := by
  unfold Board.set Board.get
  by_cases hrc : 0 ≤ r ∧ 0 ≤ c
  case neg => rw [if_neg hrc]
  rw [if_pos hrc]
  by_cases hrc' : 0 ≤ r' ∧ 0 ≤ c'
  case neg => rw [if_neg hrc', if_neg hrc']
  rw [if_pos hrc', if_pos hrc']
  dsimp only
  simp only [List.getD_eq_getElem?_getD]
  by_cases hrr : r'.toNat = r.toNat
  · have hr'r : r' = r := by omega
    have hcc : c.toNat ≠ c'.toNat := by
      have hne : c' ≠ c := by
        intro he
        exact h (by rw [hr'r, he])
      omega
    rw [hrr]
    by_cases hlt : r.toNat < b.cells.length
    · rw [List.getElem?_set_self hlt, Option.getD_some,
        List.getElem?_set_ne hcc]
    · rw [List.set_eq_of_length_le (Nat.le_of_not_lt hlt)]
  · rw [List.getElem?_set_ne (Ne.symm hrr)]

theorem Board.inBounds_set {b : Board} {x y r c : Int} {p : Player} :
    (b.set x y p).inBounds r c = b.inBounds r c := by
  unfold Board.set
  by_cases hxy : 0 ≤ x ∧ 0 ≤ y
  case neg => rw [if_neg hxy]
  rw [if_pos hxy]
  unfold Board.inBounds
  dsimp only
  simp only [List.length_set, List.getD_eq_getElem?_getD]
  by_cases hrx : r.toNat = x.toNat
  · rw [hrx]
    by_cases hlt : x.toNat < b.cells.length
    · rw [List.getElem?_set_self hlt, Option.getD_some, List.length_set]
    · rw [List.set_eq_of_length_le (Nat.le_of_not_lt hlt)]
  · rw [List.getElem?_set_ne (Ne.symm hrx)]

theorem Board.shaped_set {b : Board} {r c : Int} {p : Player}
    (h : b.Shaped) : (b.set r c p).Shaped := by
  unfold Board.set
  by_cases hrc : 0 ≤ r ∧ 0 ≤ c
  case neg => rwa [if_neg hrc]
  rw [if_pos hrc]
  obtain ⟨hlen, hrow⟩ := h
  by_cases hlt : r.toNat < b.cells.length
  · refine ⟨by simpa using hlen, ?_⟩
    intro row hmem
    dsimp only at hmem
    rcases List.mem_or_eq_of_mem_set hmem with hmem' | heq
    · exact hrow row hmem'
    · subst heq
      rw [List.length_set, List.getD_eq_getElem _ _ hlt]
      exact hrow _ (List.getElem_mem hlt)
  · rw [List.set_eq_of_length_le (Nat.le_of_not_lt hlt)]
    exact ⟨hlen, hrow⟩

/-- Number of cells of the board holding `p`. -/
def Board.countP (b : Board) (p : Player) : Nat :=
  (b.cells.map (fun row => row.count p)).sum

/-- Occupancy contribution of a single cell value. -/
def occNat : Player → Nat
  | .EMPTY => 0
  | _ => 1

/-- Total number of occupied cells. -/
def Board.occupied (b : Board) : Nat :=
  b.countP .WHITE + b.countP .BLACK

theorem occNat_split (p : Player) :
    (if p = .WHITE then 1 else 0) + (if p = .BLACK then 1 else 0) = occNat p := by
  cases p <;> rfl

theorem occNat_ne_empty {p : Player} (h : p ≠ .EMPTY) : occNat p = 1 := by
  cases p <;> simp_all [occNat]

theorem list_count_set_add {α : Type _} [DecidableEq α] (l : List α) (i : Nat) (v p : α)
    (h : i < l.length) :
    (l.set i v).count p + (if l[i] = p then 1 else 0)
      = l.count p + (if v = p then 1 else 0) := by
  induction l generalizing i with
  | nil => simp at h
  | cons x xs ih =>
    cases i with
    | zero =>
      simp only [List.set_cons_zero, List.count_cons, List.getElem_cons_zero, beq_iff_eq]
      omega
    | succ n =>
      have hn : n < xs.length := by simpa using h
      have := ih n hn
      simp only [List.set_cons_succ, List.count_cons, List.getElem_cons_succ, beq_iff_eq]
      omega

theorem list_map_sum_set {α : Type _} (f : α → Nat) (l : List α) (i : Nat) (v : α)
    (h : i < l.length) :
    ((l.set i v).map f).sum + f l[i] = (l.map f).sum + f v := by
  induction l generalizing i with
  | nil => simp at h
  | cons x xs ih =>
    cases i with
    | zero =>
      simp only [List.set_cons_zero, List.map_cons, List.sum_cons, List.getElem_cons_zero]
      omega
    | succ n =>
      have hn : n < xs.length := by simpa using h
      have := ih n hn
      simp only [List.set_cons_succ, List.map_cons, List.sum_cons, List.getElem_cons_succ]
      omega

theorem Board.countP_set {b : Board} {r c : Int} {v : Player} (p : Player)
    (h : b.inBounds r c = true) :
    (b.set r c v).countP p + (if b.get r c = p then 1 else 0)
      = b.countP p + (if v = p then 1 else 0) := by
  unfold Board.inBounds at h
  simp only [Bool.and_eq_true, decide_eq_true_eq] at h
  obtain ⟨⟨⟨hr, hc⟩, hrn⟩, hcn⟩ := h
  have hrc : 0 ≤ r ∧ 0 ≤ c := ⟨hr, hc⟩
  rw [List.getD_eq_getElem _ _ hrn] at hcn
  have hget : b.get r c = b.cells[r.toNat][c.toNat] := by
    unfold Board.get
    rw [if_pos hrc, List.getD_eq_getElem _ _ hrn, List.getD_eq_getElem _ _ hcn]
  have hcells : (b.set r c v).cells
      = b.cells.set r.toNat (b.cells[r.toNat].set c.toNat v) := by
    unfold Board.set
    rw [if_pos hrc]
    dsimp only
    rw [List.getD_eq_getElem _ _ hrn]
  unfold Board.countP
  rw [hget, hcells]
  have houter : ((b.cells.set r.toNat (b.cells[r.toNat].set c.toNat v)).map
        (fun row => row.count p)).sum + (b.cells[r.toNat]).count p
      = (b.cells.map (fun row => row.count p)).sum
        + (b.cells[r.toNat].set c.toNat v).count p :=
    list_map_sum_set (fun row => row.count p) b.cells r.toNat
      (b.cells[r.toNat].set c.toNat v) hrn
  have hinner := list_count_set_add b.cells[r.toNat] c.toNat v p hcn
  omega

theorem Board.occupied_set {b : Board} {r c : Int} {v : Player}
    (h : b.inBounds r c = true) :
    (b.set r c v).occupied + occNat (b.get r c) = b.occupied + occNat v := by
  have hw := Board.countP_set (b := b) (r := r) (c := c) (v := v) .WHITE h
  have hb := Board.countP_set (b := b) (r := r) (c := c) (v := v) .BLACK h
  have h1 := occNat_split (b.get r c)
  have h2 := occNat_split v
  unfold Board.occupied
  omega

theorem Board.occupied_set_empty_le (b : Board) (r c : Int) :
    (b.set r c .EMPTY).occupied ≤ b.occupied := by
  cases hib : b.inBounds r c with
  | true =>
    have := Board.occupied_set (b := b) (r := r) (c := c) (v := .EMPTY) hib
    simp only [occNat] at this
    omega
  | false => rw [Board.set_of_not_inBounds hib]

theorem Board.occupied_foldl_le (ks : List (Int × Int)) (b0 : Board) :
    (ks.foldl (fun b k => b.set k.1 k.2 Player.EMPTY) b0).occupied ≤ b0.occupied := by
  induction ks generalizing b0 with
  | nil => exact Nat.le_refl _
  | cons k rest ih =>
    rw [List.foldl_cons]
    exact Nat.le_trans (ih _) (Board.occupied_set_empty_le b0 k.1 k.2)

theorem Board.shaped_foldl {ks : List (Int × Int)} {b0 : Board} (h : b0.Shaped) :
    (ks.foldl (fun b k => b.set k.1 k.2 Player.EMPTY) b0).Shaped := by
  induction ks generalizing b0 with
  | nil => exact h
  | cons k rest ih =>
    rw [List.foldl_cons]
    exact ih (Board.shaped_set h)

theorem Board.get_foldl_ne {ks : List (Int × Int)} {b0 : Board} {r c : Int}
    (h : ∀ k ∈ ks, (r, c) ≠ (k.1, k.2)) :
    (ks.foldl (fun b k => b.set k.1 k.2 Player.EMPTY) b0).get r c = b0.get r c := by
  induction ks generalizing b0 with
  | nil => rfl
  | cons k rest ih =>
    rw [List.foldl_cons]
    rw [ih (fun k' hk' => h k' (List.mem_cons_of_mem _ hk'))]
    exact Board.get_set_ne (h k (List.mem_cons_self _ _))

theorem list_count_three (row : List Player) :
    row.count .WHITE + row.count .BLACK + row.count .EMPTY = row.length := by
  induction row with
  | nil => rfl
  | cons x xs ih =>
    cases x <;> simp [List.count_cons] <;> omega

theorem Board.count_total {b : Board} (h : b.Shaped) :
    b.countP .WHITE + b.countP .BLACK + b.countP .EMPTY = b.width * b.height := by
  obtain ⟨hlen, hrow⟩ := h
  unfold Board.countP
  have key : ∀ (L : List (List Player)), (∀ row ∈ L, row.length = b.width) →
      (L.map (fun row => row.count .WHITE)).sum + (L.map (fun row => row.count .BLACK)).sum +
        (L.map (fun row => row.count .EMPTY)).sum = b.width * L.length := by
    intro L
    induction L with
    | nil => simp
    | cons x xs ih =>
      intro hL
      simp only [List.map_cons, List.sum_cons, List.length_cons]
      have hx := list_count_three x
      have hxs := ih (fun row hr => hL row (List.mem_cons_of_mem _ hr))
      have hxlen := hL x (List.mem_cons_self _ _)
      rw [Nat.mul_succ]
      omega
  rw [key b.cells hrow, hlen]

/-- Modelled from the spec: the capture kind of a Motion (approach or
withdrawal), `none` for a quiet move. -/
inductive CaptureKind where
  | approach
  | withdrawal
deriving DecidableEq, Repr

/-- Modelled from the spec: the `MotionMove` class of the missing
`moves/motion_move.py` — origin cell, destination cell, and the ordered
sequence of captured cell coordinates (`game.py` reads `row_origin`,
`col_origin`, `row_destination`, `col_destination` and `get_first_to_kill`). -/
structure MotionMove where
  row_origin : Int
  col_origin : Int
  row_destination : Int
  col_destination : Int
  kills : List (Int × Int)
  kind : Option CaptureKind
deriving DecidableEq, Repr

/-- Modelled from the spec: the closed set of Move variants — a Pass or a
Motion. -/
inductive Move where
  | pass
  | motion (m : MotionMove)
deriving DecidableEq, Repr

/-- A Motion that captures at least one piece. -/
def Move.isCapture : Move → Bool
  | .pass => false
  | .motion m => !m.kills.isEmpty

/-- A Motion that captures nothing. -/
def Move.isQuiet : Move → Bool
  | .pass => false
  | .motion m => m.kills.isEmpty

/-- The Pass variant. -/
def Move.isPass : Move → Bool
  | .pass => true
  | .motion _ => false

/-- First captured cell of the move (`MotionMove.get_first_to_kill`). -/
def Move.get_first_to_kill : Move → Option (Int × Int)
  | .pass => none
  | .motion m => m.kills.head?

/-- Modelled from the spec: the 8 grid directions used for motion
enumeration. -/
def dirs : List (Int × Int) :=
  [(-1, -1), (-1, 0), (-1, 1), (0, -1), (0, 1), (1, -1), (1, 0), (1, 1)]

/-- Iteration budget strictly larger than any line of cells on the board. -/
def Board.fuel (b : Board) : Nat :=
  b.cells.length + (b.cells.map List.length).sum + 1

/-- Modelled from the spec: the contiguous run of opposing pieces along a ray,
collected while the scanned cell holds the opponent (off-board cells read
`EMPTY` and stop the run). -/
def capturedRay (b : Board) (opp : Player) : Nat → Int → Int → Int → Int → List (Int × Int)
  | 0, _, _, _, _ => []
  | Nat.succ n, r, c, dr, dc =>
    if b.get r c = opp then (r, c) :: capturedRay b opp n (r + dr) (c + dc) dr dc
    else []

theorem mem_capturedRay {b : Board} {opp : Player} :
    ∀ {n : Nat} {r c dr dc : Int} {k : Int × Int},
      k ∈ capturedRay b opp n r c dr dc → b.get k.1 k.2 = opp := by
  intro n
  induction n with
  | zero => intro r c dr dc k hk; simp [capturedRay] at hk
  | succ m ih =>
    intro r c dr dc k hk
    unfold capturedRay at hk
    split at hk
    · rcases List.mem_cons.mp hk with hk | hk
      · subst hk; assumption
      · exact ih hk
    · simp at hk

/-- Modelled from the spec: all Motion moves of the piece at `(r, c)` —
every grid-adjacent empty destination in all 8 directions (minus a banned
chain direction), with an approach capture checked beyond the destination and
a withdrawal capture behind the origin; when both captures are available two
Motions are produced, disambiguated by which captured group is removed. -/
def candidatesFrom (b : Board) (p : Player) (r c : Int) (banned : Option (Int × Int)) :
    List Move :=
  dirs.flatMap (fun d =>
    if banned = some d then []
    else
      let r2 := r + d.1
      let c2 := c + d.2
      if b.inBounds r2 c2 && (b.get r2 c2 == Player.EMPTY) then
        let app := capturedRay b p.other b.fuel (r2 + d.1) (c2 + d.2) d.1 d.2
        let wd := capturedRay b p.other b.fuel (r - d.1) (c - d.2) (-d.1) (-d.2)
        if !app.isEmpty && !wd.isEmpty then
          [Move.motion ⟨r, c, r2, c2, app, some .approach⟩,
           Move.motion ⟨r, c, r2, c2, wd, some .withdrawal⟩]
        else if !app.isEmpty then [Move.motion ⟨r, c, r2, c2, app, some .approach⟩]
        else if !wd.isEmpty then [Move.motion ⟨r, c, r2, c2, wd, some .withdrawal⟩]
        else [Move.motion ⟨r, c, r2, c2, [], none⟩]
      else [])

/-- Modelled from the spec: the `State` of the missing `state.py` — a Board,
the side to move, and (while a capture chain is in progress) the chaining
piece's position together with the direction already used to reach it. -/
structure State where
  board : Board
  player : Player
  chain : Option ((Int × Int) × (Int × Int))
deriving DecidableEq, Repr

/-- Modelled from the spec: candidate Motions before the mandatory-capture
filter — continuations of an in-progress chain, or otherwise all motions of
every piece of the side to move. -/
def State.allCandidates (s : State) : List Move :=
  match s.chain with
  | some (pos, d) => candidatesFrom s.board s.player pos.1 pos.2 (some d)
  | none =>
    (List.range s.board.cells.length).flatMap (fun r =>
      (List.range ((s.board.cells.getD r []).length)).flatMap (fun c =>
        if s.board.get (r : Int) (c : Int) == s.player then
          candidatesFrom s.board s.player (r : Int) (c : Int) none
        else []))

/-- Modelled from the spec: `getAvailableMoves` — if any capturing move
exists only capturing moves are legal; Pass is legal only when the set would
otherwise be empty. -/
def State.get_available_moves (s : State) : List Move :=
  let cand := s.allCandidates
  let caps := cand.filter Move.isCapture
  if caps.isEmpty then (if cand.isEmpty then [Move.pass] else cand) else caps

/-- Modelled from the spec: `executeMove` — apply the motion (vacating the
origin, occupying the destination), remove every captured cell's occupant;
if the move captured and the moved piece still has a capture continuation
(in a direction other than the one just used) the side to move is kept and
the chain metadata is set, otherwise the side to move flips and the chain
is cleared.  Passing always flips the side to move. -/
def State.execute_move (s : State) (m : Move) : State :=
  match m with
  | .pass => ⟨s.board, s.player.other, none⟩
  | .motion mm =>
    let d : Int × Int :=
      (mm.row_destination - mm.row_origin, mm.col_destination - mm.col_origin)
    let b1 := (s.board.set mm.row_origin mm.col_origin .EMPTY).set
      mm.row_destination mm.col_destination s.player
    let b2 := mm.kills.foldl (fun b k => b.set k.1 k.2 Player.EMPTY) b1
    if !mm.kills.isEmpty &&
        (candidatesFrom b2 s.player mm.row_destination mm.col_destination
          (some d)).any Move.isCapture then
      ⟨b2, s.player, some ((mm.row_destination, mm.col_destination), d)⟩
    else ⟨b2, s.player.other, none⟩

/-- Spec well-formedness of a state: the grid is really `height × width`,
the side to move is a real side, and chain metadata (if any) points at a
piece of the side to move. -/
def State.Inv (s : State) : Prop :=
  s.board.Shaped ∧ s.player ≠ .EMPTY ∧
    ∀ pos d, s.chain = some (pos, d) → s.board.get pos.1 pos.2 = s.player

/-- An initial state: a full `height × width` grid, a real side to move, no
chain in progress. -/
def State.InitOK (s : State) : Prop :=
  s.board.Shaped ∧ s.player ≠ .EMPTY ∧ s.chain = none

instance (s : State) : Decidable s.InitOK := by
  unfold State.InitOK
  infer_instance

/-- Modelled from the spec: states reachable from `s0` by applying legal
moves (`executeMove` is only ever called on members of the available-move
set). -/
inductive Reachable : State → State → Prop where
  | refl (s : State) : Reachable s s
  | step {s t : State} (m : Move) : Reachable s t → m ∈ t.get_available_moves →
      Reachable s (t.execute_move m)

theorem mem_candidatesFrom {b : Board} {p : Player} {r c : Int}
    {banned : Option (Int × Int)} {m : Move}
    (hm : m ∈ candidatesFrom b p r c banned) :
    ∃ mm : MotionMove, m = .motion mm ∧ mm.row_origin = r ∧ mm.col_origin = c ∧
      b.inBounds mm.row_destination mm.col_destination = true ∧
      b.get mm.row_destination mm.col_destination = .EMPTY ∧
      ∀ k ∈ mm.kills, b.get k.1 k.2 = p.other := by
  simp only [candidatesFrom, List.mem_flatMap] at hm
  obtain ⟨d, hd, hm⟩ := hm
  split at hm
  · simp at hm
  · split at hm
    case isFalse => simp at hm
    case isTrue hcond =>
      simp only [Bool.and_eq_true, beq_iff_eq] at hcond
      obtain ⟨hib, hge⟩ := hcond
      split at hm
      · simp only [List.mem_cons, List.mem_singleton, List.not_mem_nil, or_false] at hm
        rcases hm with hm | hm <;> subst hm
        · exact ⟨_, rfl, rfl, rfl, hib, hge, fun k hk => mem_capturedRay hk⟩
        · exact ⟨_, rfl, rfl, rfl, hib, hge, fun k hk => mem_capturedRay hk⟩
      · split at hm
        · simp only [List.mem_singleton] at hm
          subst hm
          exact ⟨_, rfl, rfl, rfl, hib, hge, fun k hk => mem_capturedRay hk⟩
        · split at hm
          · simp only [List.mem_singleton] at hm
            subst hm
            exact ⟨_, rfl, rfl, rfl, hib, hge, fun k hk => mem_capturedRay hk⟩
          · simp only [List.mem_singleton] at hm
            subst hm
            exact ⟨_, rfl, rfl, rfl, hib, hge, by intro k hk; simp at hk⟩

theorem mem_allCandidates {s : State} {m : Move}
    (hchain : ∀ pos d, s.chain = some (pos, d) → s.board.get pos.1 pos.2 = s.player)
    (hm : m ∈ s.allCandidates) :
    ∃ mm : MotionMove, m = .motion mm ∧
      s.board.get mm.row_origin mm.col_origin = s.player ∧
      s.board.inBounds mm.row_destination mm.col_destination = true ∧
      s.board.get mm.row_destination mm.col_destination = .EMPTY ∧
      ∀ k ∈ mm.kills, s.board.get k.1 k.2 = s.player.other := by
  unfold State.allCandidates at hm
  split at hm
  case h_1 pos d heq =>
    obtain ⟨mm, hmm, hro, hco, hib, hge, hk⟩ := mem_candidatesFrom hm
    refine ⟨mm, hmm, ?_, hib, hge, hk⟩
    rw [hro, hco]
    exact hchain pos d heq
  case h_2 heq =>
    simp only [List.mem_flatMap, List.mem_range] at hm
    obtain ⟨r, hr, c, hc, hm⟩ := hm
    split at hm
    case isTrue hcell =>
      obtain ⟨mm, hmm, hro, hco, hib, hge, hk⟩ := mem_candidatesFrom hm
      refine ⟨mm, hmm, ?_, hib, hge, hk⟩
      rw [hro, hco]
      exact beq_iff_eq.mp hcell
    case isFalse => simp at hm

theorem available_eq (s : State) :
    (s.get_available_moves = s.allCandidates.filter Move.isCapture ∧
        (s.allCandidates.filter Move.isCapture).isEmpty = false)
    ∨ (s.get_available_moves = s.allCandidates ∧
        (s.allCandidates.filter Move.isCapture).isEmpty = true ∧
        s.allCandidates.isEmpty = false)
    ∨ (s.get_available_moves = [Move.pass] ∧
        (s.allCandidates.filter Move.isCapture).isEmpty = true ∧
        s.allCandidates.isEmpty = true) := by
  unfold State.get_available_moves
  by_cases h1 : (s.allCandidates.filter Move.isCapture).isEmpty = true
  · by_cases h2 : s.allCandidates.isEmpty = true
    · exact Or.inr (Or.inr ⟨by simp [h1, h2], h1, h2⟩)
    · exact Or.inr (Or.inl ⟨by simp [h1, h2], h1, by simpa using h2⟩)
  · exact Or.inl ⟨by simp [h1], by simpa using h1⟩

theorem mem_available_cases {s : State} {m : Move}
    (hm : m ∈ s.get_available_moves) : m = .pass ∨ m ∈ s.allCandidates := by
  rcases available_eq s with ⟨he, _⟩ | ⟨he, _, _⟩ | ⟨he, _, _⟩
  · rw [he] at hm
    exact Or.inr (List.mem_filter.mp hm).1
  · rw [he] at hm
    exact Or.inr hm
  · rw [he] at hm
    simp only [List.mem_singleton] at hm
    exact Or.inl hm

/-- Claim C1: if `getAvailableMoves(state)` contains at least one capturing
Motion, then it contains no quiet Motion and no Pass — captures are
mandatory. -/
theorem C1_mandatory_captures (s : State)
    (h : ∃ m ∈ s.get_available_moves, m.isCapture = true) :
    ∀ m ∈ s.get_available_moves, m.isQuiet = false ∧ m.isPass = false := by
  intro m hm
  obtain ⟨mc, hmc, hcap⟩ := h
  rcases available_eq s with ⟨he, _⟩ | ⟨he, hcapsE, _⟩ | ⟨he, _, hcandE⟩
  · rw [he] at hm
    have hmcap := (List.mem_filter.mp hm).2
    cases m with
    | pass => simp [Move.isCapture] at hmcap
    | motion mm =>
      simp only [Move.isCapture, Bool.not_eq_true'] at hmcap
      simp [Move.isQuiet, Move.isPass, hmcap]
  · rw [he] at hmc
    have hmem : mc ∈ s.allCandidates.filter Move.isCapture :=
      List.mem_filter.mpr ⟨hmc, hcap⟩
    rw [List.isEmpty_iff.mp hcapsE] at hmem
    simp at hmem
  · rw [he] at hmc
    simp only [List.mem_singleton] at hmc
    subst hmc
    simp [Move.isCapture] at hcap

theorem execute_move_board (s : State) (mm : MotionMove) :
    (s.execute_move (.motion mm)).board
      = mm.kills.foldl (fun b k => b.set k.1 k.2 Player.EMPTY)
          ((s.board.set mm.row_origin mm.col_origin .EMPTY).set
            mm.row_destination mm.col_destination s.player) := by
  unfold State.execute_move
  dsimp only
  split <;> rfl

theorem occupied_execute {s : State} (hInv : s.Inv) {m : Move}
    (hm : m ∈ s.get_available_moves) :
    (m.isCapture = true → (s.execute_move m).board.occupied < s.board.occupied) ∧
    (m.isCapture = false → (s.execute_move m).board.occupied = s.board.occupied) := by
  obtain ⟨hshape, hp, hchain⟩ := hInv
  rcases mem_available_cases hm with hpass | hcand
  · subst hpass
    refine ⟨fun hc => by simp [Move.isCapture] at hc, fun _ => rfl⟩
  · obtain ⟨mm, rfl, ho, hdb, hde, hk⟩ := mem_allCandidates hchain hcand
    have hop : s.board.get mm.row_origin mm.col_origin ≠ .EMPTY := by
      rw [ho]; exact hp
    have hob : s.board.inBounds mm.row_origin mm.col_origin = true :=
      Board.get_ne_empty_inBounds hop
    have hdo : (mm.row_destination, mm.col_destination)
        ≠ (mm.row_origin, mm.col_origin) := by
      intro he
      rw [Prod.mk.injEq] at he
      apply hp
      rw [← ho, ← he.1, ← he.2]
      exact hde
    have hoP : occNat s.player = 1 := occNat_ne_empty hp
    have hoE : occNat Player.EMPTY = 0 := rfl
    have e1 := Board.occupied_set (b := s.board) (r := mm.row_origin)
      (c := mm.col_origin) (v := .EMPTY) hob
    rw [ho] at e1
    have hgd' : (s.board.set mm.row_origin mm.col_origin .EMPTY).get
        mm.row_destination mm.col_destination = .EMPTY := by
      rw [Board.get_set_ne hdo]
      exact hde
    have hib' : (s.board.set mm.row_origin mm.col_origin .EMPTY).inBounds
        mm.row_destination mm.col_destination = true := by
      rw [Board.inBounds_set]
      exact hdb
    have e2 := Board.occupied_set
      (b := s.board.set mm.row_origin mm.col_origin .EMPTY)
      (r := mm.row_destination) (c := mm.col_destination) (v := s.player) hib'
    rw [hgd'] at e2
    have h1 : ((s.board.set mm.row_origin mm.col_origin .EMPTY).set
        mm.row_destination mm.col_destination s.player).occupied
        = s.board.occupied := by omega
    rw [execute_move_board]
    cases hkE : mm.kills with
    | nil =>
      refine ⟨fun hc => by simp [Move.isCapture, hkE] at hc, fun _ => ?_⟩
      rw [List.foldl_nil]
      exact h1
    | cons k rest =>
      refine ⟨fun _ => ?_, fun hcf => by simp [Move.isCapture, hkE] at hcf⟩
      have hkk := hk k (by rw [hkE]; exact List.mem_cons_self _ _)
      have hkno : (k.1, k.2) ≠ (mm.row_origin, mm.col_origin) := by
        intro he
        rw [Prod.mk.injEq] at he
        apply Player.other_ne_self hp
        rw [← hkk, he.1, he.2]
        exact ho
      have hknd : (k.1, k.2) ≠ (mm.row_destination, mm.col_destination) := by
        intro he
        rw [Prod.mk.injEq] at he
        apply Player.other_ne_empty hp
        rw [← hkk, he.1, he.2]
        exact hde
      have hb1k : ((s.board.set mm.row_origin mm.col_origin .EMPTY).set
          mm.row_destination mm.col_destination s.player).get k.1 k.2
          = s.player.other := by
        rw [Board.get_set_ne hknd, Board.get_set_ne hkno]
        exact hkk
      have hibk : ((s.board.set mm.row_origin mm.col_origin .EMPTY).set
          mm.row_destination mm.col_destination s.player).inBounds k.1 k.2 = true :=
        Board.get_ne_empty_inBounds (by rw [hb1k]; exact Player.other_ne_empty hp)
      have e3 := Board.occupied_set
        (b := (s.board.set mm.row_origin mm.col_origin .EMPTY).set
          mm.row_destination mm.col_destination s.player)
        (r := k.1) (c := k.2) (v := .EMPTY) hibk
      rw [hb1k] at e3
      have hoO : occNat s.player.other = 1 :=
        occNat_ne_empty (Player.other_ne_empty hp)
      have hrest := Board.occupied_foldl_le rest
        (((s.board.set mm.row_origin mm.col_origin .EMPTY).set
          mm.row_destination mm.col_destination s.player).set k.1 k.2 .EMPTY)
      rw [List.foldl_cons]
      omega

theorem Inv_execute {s : State} (hInv : s.Inv) {m : Move}
    (hm : m ∈ s.get_available_moves) : (s.execute_move m).Inv := by
  obtain ⟨hshape, hp, hchain⟩ := hInv
  rcases mem_available_cases hm with hpass | hcand
  · subst hpass
    exact ⟨hshape, Player.other_ne_empty hp, by intro pos d hch; cases hch⟩
  · obtain ⟨mm, rfl, ho, hdb, hde, hk⟩ := mem_allCandidates hchain hcand
    have hshape' : (s.execute_move (.motion mm)).board.Shaped := by
      rw [execute_move_board]
      exact Board.shaped_foldl (Board.shaped_set (Board.shaped_set hshape))
    refine ⟨hshape', ?_, ?_⟩
    · unfold State.execute_move
      dsimp only
      split
      · exact hp
      · exact Player.other_ne_empty hp
    · have hdo : (mm.row_destination, mm.col_destination)
          ≠ (mm.row_origin, mm.col_origin) := by
        intro he
        rw [Prod.mk.injEq] at he
        apply hp
        rw [← ho, ← he.1, ← he.2]
        exact hde
      have hb1d : ((s.board.set mm.row_origin mm.col_origin .EMPTY).set
          mm.row_destination mm.col_destination s.player).get
          mm.row_destination mm.col_destination = s.player :=
        Board.get_set_same (by rw [Board.inBounds_set]; exact hdb)
      have hkd : ∀ k ∈ mm.kills,
          (mm.row_destination, mm.col_destination) ≠ (k.1, k.2) := by
        intro k hkk he
        rw [Prod.mk.injEq] at he
        apply Player.other_ne_empty hp
        rw [← hk k hkk, ← he.1, ← he.2]
        exact hde
      have hb2d : (mm.kills.foldl (fun b k => b.set k.1 k.2 Player.EMPTY)
          ((s.board.set mm.row_origin mm.col_origin .EMPTY).set
            mm.row_destination mm.col_destination s.player)).get
          mm.row_destination mm.col_destination = s.player := by
        rw [Board.get_foldl_ne hkd]
        exact hb1d
      unfold State.execute_move
      dsimp only
      split
      · intro pos d hch
        simp only [Option.some.injEq, Prod.mk.injEq] at hch
        obtain ⟨hpos, -⟩ := hch
        subst hpos
        exact hb2d
      · intro pos d hch
        cases hch

theorem reachable_inv {s0 s : State} (h0 : s0.InitOK) (hr : Reachable s0 s) :
    s.Inv := by
  induction hr with
  | refl =>
    refine ⟨h0.1, h0.2.1, ?_⟩
    intro pos d hch
    rw [h0.2.2] at hch
    cases hch
  | step m hr hm ih => exact Inv_execute ih hm

/-- Claim C2: every state reachable from an initial state by legal moves has
`count(WHITE) + count(BLACK) + count(EMPTY) = width × height`, and across any
legal applied move the number of occupied cells strictly decreases on a
capture and stays constant on a quiet motion or a pass (in particular it
never increases). -/
theorem C2_piece_conservation (s0 s : State) (h0 : s0.InitOK)
    (hr : Reachable s0 s) :
    s.board.countP .WHITE + s.board.countP .BLACK + s.board.countP .EMPTY
        = s.board.width * s.board.height ∧
      ∀ m ∈ s.get_available_moves,
        (m.isCapture = true →
          (s.execute_move m).board.occupied < s.board.occupied) ∧
        (m.isCapture = false →
          (s.execute_move m).board.occupied = s.board.occupied) := by
  have hInv := reachable_inv h0 hr
  exact ⟨Board.count_total hInv.1, fun m hm => occupied_execute hInv hm⟩

/-- The spec's approach-capture scenario: 1×3 board `[A, _, B]`, A to move. -/
def demoBoard : Board := ⟨3, 1, [[.WHITE, .EMPTY, .BLACK]]⟩

/-- Initial state on `demoBoard`, white to move, no chain. -/
def demoState : State := ⟨demoBoard, .WHITE, none⟩

/-- The only legal move on `demoState`: A moves to the middle and captures B
by approach. -/
def demoMove : Move := .motion ⟨0, 0, 0, 1, [(0, 2)], some .approach⟩

theorem C1_mandatory_captures_witness :
    (∃ m ∈ demoState.get_available_moves, m.isCapture = true) ∧
      demoMove.isQuiet = false ∧ demoMove.isPass = false :=
  ⟨by decide,
    C1_mandatory_captures demoState (by decide) demoMove (by decide)⟩

theorem C2_piece_conservation_witness :
    demoState.board.countP .WHITE + demoState.board.countP .BLACK
        + demoState.board.countP .EMPTY
        = demoState.board.width * demoState.board.height ∧
      (demoState.execute_move demoMove).board.occupied
        < demoState.board.occupied := by
  have h := C2_piece_conservation demoState demoState (by decide)
    (Reachable.refl demoState)
  exact ⟨h.1, (h.2 demoMove (by decide)).1 (by decide)⟩

/-- The `PlayerModes` enum of `game.py`. -/
inductive PlayerModes where
  | HUMAN
  | RANDOM
  | MINIMAX_VERY_EASY
  | MINIMAX_EASY
  | MINIMAX_DEFENSIVE_EASY
  | MINIMAX_DEFENSIVE_HARD
  | MINIMAX_AGRESSIVE_EASY
  | MINIMAX_AGRESSIVE_HARD
  | MCTS_QUICK
  | MCTS_BETTER
  | MCTS_HEURISTICS
deriving DecidableEq, Repr, Fintype

/-- `Game.is_minimax` from `game.py`. -/
def Game.is_minimax (mode : PlayerModes) : Bool :=
  mode == .MINIMAX_VERY_EASY || mode == .MINIMAX_EASY ||
    mode == .MINIMAX_DEFENSIVE_EASY || mode == .MINIMAX_DEFENSIVE_HARD ||
    mode == .MINIMAX_AGRESSIVE_EASY || mode == .MINIMAX_AGRESSIVE_HARD

/-- `Game.is_random` from `game.py`. -/
def Game.is_random (mode : PlayerModes) : Bool :=
  mode == .RANDOM

/-- `Game.is_mcts` from `game.py`. -/
def Game.is_mcts (mode : PlayerModes) : Bool :=
  mode == .MCTS_QUICK || mode == .MCTS_BETTER || mode == .MCTS_HEURISTICS

/-- The heuristic evaluator classes referenced by `Game.choose_alg`. -/
inductive HeuristicKind where
  | win
  | nrPieces
  | adjacentPieces
  | groups
  | centerControl
  | approximateEnemy
deriving DecidableEq, Repr

/-- The `(evaluator, weight)` list of the `HeuristicsList` built by
`Game.choose_alg` in `game.py` for each mode (weights `1e6`, `100000`, … are
all integral and are recorded as naturals); `none` for modes that build no
heuristic combiner. -/
def choose_alg_heuristics : PlayerModes → Option (List (HeuristicKind × Nat))
  | .MINIMAX_VERY_EASY => some [(.win, 1000000), (.approximateEnemy, 1)]
  | .MINIMAX_EASY => some [(.win, 1000000), (.nrPieces, 1)]
  | .MINIMAX_DEFENSIVE_EASY =>
      some [(.win, 1000000), (.nrPieces, 10), (.groups, 2),
        (.adjacentPieces, 1), (.centerControl, 1)]
  | .MINIMAX_DEFENSIVE_HARD =>
      some [(.win, 1000000), (.nrPieces, 10), (.groups, 1), (.centerControl, 1)]
  | .MINIMAX_AGRESSIVE_EASY =>
      some [(.win, 1000000), (.nrPieces, 10), (.approximateEnemy, 2)]
  | .MINIMAX_AGRESSIVE_HARD =>
      some [(.win, 1000000), (.nrPieces, 2), (.approximateEnemy, 1)]
  | .MCTS_HEURISTICS =>
      some [(.win, 100000), (.nrPieces, 50), (.groups, 10), (.centerControl, 5)]
  | _ => none

/-- Claim C8: in every heuristic-combiner configuration constructed by
`choose_alg`, the win evaluator comes with weight 1e6 or 100000 while every
material/positional weight is at most 50, so the win weight exceeds each of
them by orders of magnitude (at least 1000×). -/
theorem C8_win_weight_dominates (mode : PlayerModes)
    (cfg : List (HeuristicKind × Nat))
    (h : choose_alg_heuristics mode = some cfg) :
    ∃ ww, cfg.head? = some (.win, ww) ∧ 100000 ≤ ww ∧
      ∀ p ∈ cfg, p.1 ≠ .win → p.2 ≤ 50 ∧ 1000 * p.2 ≤ ww := by
  cases mode <;> simp only [choose_alg_heuristics, Option.some.injEq] at h <;>
    try subst h
  case HUMAN => exact Option.noConfusion h
  case RANDOM => exact Option.noConfusion h
  case MCTS_QUICK => exact Option.noConfusion h
  case MCTS_BETTER => exact Option.noConfusion h
  case MINIMAX_VERY_EASY => exact ⟨1000000, rfl, by decide, by decide⟩
  case MINIMAX_EASY => exact ⟨1000000, rfl, by decide, by decide⟩
  case MINIMAX_DEFENSIVE_EASY => exact ⟨1000000, rfl, by decide, by decide⟩
  case MINIMAX_DEFENSIVE_HARD => exact ⟨1000000, rfl, by decide, by decide⟩
  case MINIMAX_AGRESSIVE_EASY => exact ⟨1000000, rfl, by decide, by decide⟩
  case MINIMAX_AGRESSIVE_HARD => exact ⟨1000000, rfl, by decide, by decide⟩
  case MCTS_HEURISTICS => exact ⟨100000, rfl, by decide, by decide⟩

theorem C8_win_weight_dominates_witness :
    ∃ ww, ([((HeuristicKind.win : HeuristicKind), (1000000 : Nat)),
        (HeuristicKind.nrPieces, 1)]).head? = some (.win, ww) ∧ 100000 ≤ ww ∧
      ∀ p ∈ [((HeuristicKind.win : HeuristicKind), (1000000 : Nat)),
        (HeuristicKind.nrPieces, 1)], p.1 ≠ .win → p.2 ≤ 50 ∧ 1000 * p.2 ≤ ww :=
  C8_win_weight_dominates .MINIMAX_EASY _ rfl

/-- One observable agent interaction of the NPC dispatch in `Game.board`. -/
inductive AgentAction where
  | decideWithState
  | trainUntil (n : Nat)
  | getBestMove
  | executeMove
  | updateOwn
  | updateOther
deriving DecidableEq, Repr

/-- `Game.train_mcts` from `game.py` (lines 622–629): the `train_until` calls
issued for a mode. -/
def Game.train_mcts : PlayerModes → List AgentAction
  | .MCTS_QUICK => [.trainUntil 100]
  | .MCTS_BETTER => [.trainUntil 1000]
  | .MCTS_HEURISTICS => [.trainUntil 2000]
  | _ => []

/-- The sequence of agent interactions performed by the NPC branch of
`Game.board` (lines 709–735 of `game.py`) when Enter is pressed: minimax and
random agents are called as `alg(game_state)` and the move is executed; MCTS
agents are trained via `train_mcts`, asked for `get_best_move()`, the move is
executed and their own tree updated; in either case the opposing tree is then
updated if the other side is an MCTS variant. -/
def npcTurnTrace (mode omode : PlayerModes) : List AgentAction :=
  if Game.is_minimax mode || Game.is_random mode then
    [.decideWithState, .executeMove] ++
      (if Game.is_mcts omode then [.updateOther] else [])
  else if Game.is_mcts mode then
    Game.train_mcts mode ++ [.getBestMove, .executeMove, .updateOwn] ++
      (if Game.is_mcts omode then [.updateOther] else [])
  else []

/-- Claim C4 as stated is false: the MCTS_QUICK agent is an automated agent,
yet its turn does not start with a `decide(state)`-shaped call — it starts
with `train_until`, which takes no state. -/
theorem C4_uniform_contract_counterexample :
    PlayerModes.MCTS_QUICK ≠ PlayerModes.HUMAN ∧
      (npcTurnTrace .MCTS_QUICK .HUMAN).head? ≠ some .decideWithState := by
  decide

/-- Claim C4 (amended): every automated agent is invoked through one of
exactly two contracts — random and minimax agents as one call
`alg(state) → move`, MCTS agents as `train_until(budget)` followed by
`get_best_move()` with no state argument. -/
theorem C4_two_agent_contracts (mode omode : PlayerModes) (h : mode ≠ .HUMAN) :
    (Game.is_mcts mode = false →
      (npcTurnTrace mode omode).head? = some .decideWithState) ∧
    (Game.is_mcts mode = true → ∃ n rest,
      npcTurnTrace mode omode = .trainUntil n :: .getBestMove :: rest) := by
  cases mode <;> first
    | exact absurd rfl h
    | exact ⟨fun _ => rfl, fun hm => by simp [Game.is_mcts] at hm⟩
    | exact ⟨fun hf => by simp [Game.is_mcts] at hf, fun _ => ⟨100, _, rfl⟩⟩
    | exact ⟨fun hf => by simp [Game.is_mcts] at hf, fun _ => ⟨1000, _, rfl⟩⟩
    | exact ⟨fun hf => by simp [Game.is_mcts] at hf, fun _ => ⟨2000, _, rfl⟩⟩

theorem C4_two_agent_contracts_witness :
    (npcTurnTrace .RANDOM .HUMAN).head? = some .decideWithState ∧
      ∃ n rest,
        npcTurnTrace .MCTS_QUICK .HUMAN = .trainUntil n :: .getBestMove :: rest :=
  ⟨(C4_two_agent_contracts .RANDOM .HUMAN (by decide)).1 rfl,
   (C4_two_agent_contracts .MCTS_QUICK .HUMAN (by decide)).2 rfl⟩

/-- Claim C9: before every MCTS decision the playing loop calls `train_until`
with a budget determined solely by the mode — exactly 100 for MCTS_QUICK,
1000 for MCTS_BETTER and 2000 for MCTS_HEURISTICS — and only then calls
`get_best_move`. -/
theorem C9_mcts_training_budgets (mode omode : PlayerModes)
    (h : Game.is_mcts mode = true) :
    npcTurnTrace mode omode
      = .trainUntil (if mode = .MCTS_QUICK then 100
          else if mode = .MCTS_BETTER then 1000 else 2000)
        :: .getBestMove :: .executeMove :: .updateOwn ::
          (if Game.is_mcts omode then [.updateOther] else []) := by
  cases mode <;>
    simp_all [npcTurnTrace, Game.train_mcts, Game.is_mcts, Game.is_minimax,
      Game.is_random]

theorem C9_mcts_training_budgets_witness :
    npcTurnTrace .MCTS_QUICK .HUMAN
      = [.trainUntil 100, .getBestMove, .executeMove, .updateOwn] := by
  have h := C9_mcts_training_budgets .MCTS_QUICK .HUMAN rfl
  simpa using h

/-- The mode of a side (`white_mode` / `black_mode` in `game.py`); only
queried for real sides. -/
def sideMode (wm bm : PlayerModes) : Player → PlayerModes
  | .WHITE => wm
  | .BLACK => bm
  | .EMPTY => wm

/-- Which sides' MCTS trees receive `update_move` inside
`Game.execute_human_move` (`game.py` lines 485–489): when the mover is
black and white runs MCTS, white's tree; when the mover is white and black
runs MCTS, black's tree. -/
def execute_human_move_updates (wm bm : PlayerModes) (cur : Player) : List Player :=
  if cur == .BLACK && Game.is_mcts wm then [.WHITE]
  else if cur == .WHITE && Game.is_mcts bm then [.BLACK]
  else []

/-- Which sides' MCTS trees receive `update_move` in the NPC branch of
`Game.board` (`game.py` lines 727–735): the mover's own tree when it is an
MCTS variant (line 731), then the other side's tree when that is an MCTS
variant (lines 734–735). -/
def npc_move_updates (wm bm : PlayerModes) (cur : Player) : List Player :=
  (if Game.is_mcts (sideMode wm bm cur) then [cur] else []) ++
    (if Game.is_mcts (sideMode wm bm cur.other) then [cur.other] else [])

/-- Trees updated when a move by `cur` is applied: a human mover applies
through `execute_human_move`, any other mover through the NPC branch of
`Game.board`. -/
def updatesOnApply (wm bm : PlayerModes) (cur : Player) : List Player :=
  if sideMode wm bm cur == .HUMAN then execute_human_move_updates wm bm cur
  else npc_move_updates wm bm cur

/-- Game history and the two MCTS trees' positions, as the sequences of
moves applied to each (moves are abstract ids). -/
structure SyncState where
  history : List Nat
  whiteTree : List Nat
  blackTree : List Nat
deriving DecidableEq, Repr

/-- Applying one move: it joins the game history, and is pushed via
`update_move` into each tree whose side the dispatch updates. -/
def applyMoveEvent (wm bm : PlayerModes) (st : SyncState) (ev : Player × Nat) :
    SyncState :=
  { history := st.history ++ [ev.2]
    whiteTree :=
      if Player.WHITE ∈ updatesOnApply wm bm ev.1 then st.whiteTree ++ [ev.2]
      else st.whiteTree
    blackTree :=
      if Player.BLACK ∈ updatesOnApply wm bm ev.1 then st.blackTree ++ [ev.2]
      else st.blackTree }

/-- A whole game's applied moves, folded from empty history and fresh
trees. -/
def runMoves (wm bm : PlayerModes) (evs : List (Player × Nat)) : SyncState :=
  evs.foldl (applyMoveEvent wm bm) ⟨[], [], []⟩

theorem mcts_side_updated :
    ∀ (wm bm : PlayerModes) (cur side : Player), cur ≠ .EMPTY → side ≠ .EMPTY →
      Game.is_mcts (sideMode wm bm side) = true →
      side ∈ updatesOnApply wm bm cur := by
  decide

theorem runMoves_sync_aux (wm bm : PlayerModes) (evs : List (Player × Nat))
    (hevs : ∀ e ∈ evs, e.1 ≠ Player.EMPTY) (st : SyncState) :
    (Game.is_mcts wm = true → st.whiteTree = st.history →
      (evs.foldl (applyMoveEvent wm bm) st).whiteTree
        = (evs.foldl (applyMoveEvent wm bm) st).history) ∧
    (Game.is_mcts bm = true → st.blackTree = st.history →
      (evs.foldl (applyMoveEvent wm bm) st).blackTree
        = (evs.foldl (applyMoveEvent wm bm) st).history) := by
  induction evs generalizing st with
  | nil => exact ⟨fun _ h => h, fun _ h => h⟩
  | cons e rest ih =>
    have he := hevs e (List.mem_cons_self _ _)
    have hrest : ∀ x ∈ rest, x.1 ≠ Player.EMPTY :=
      fun x hx => hevs x (List.mem_cons_of_mem _ hx)
    rw [List.foldl_cons]
    constructor
    · intro hw hsync
      apply (ih hrest _).1 hw
      have hupd : Player.WHITE ∈ updatesOnApply wm bm e.1 :=
        mcts_side_updated wm bm e.1 .WHITE he (by simp) hw
      unfold applyMoveEvent
      dsimp only
      rw [if_pos hupd, hsync]
    · intro hb hsync
      apply (ih hrest _).2 hb
      have hupd : Player.BLACK ∈ updatesOnApply wm bm e.1 :=
        mcts_side_updated wm bm e.1 .BLACK he (by simp) hb
      unfold applyMoveEvent
      dsimp only
      rw [if_pos hupd, hsync]

/-- Claim C3: for every move applied in the playing loop (by a human or by
any automated agent), each side whose mode is an MCTS variant has
`update_move` called on its tree in that same applied-move event, so after
every applied move each MCTS side's tree history equals the actual game
history. -/
theorem C3_mcts_trees_synchronized (wm bm : PlayerModes)
    (evs : List (Player × Nat)) (hevs : ∀ e ∈ evs, e.1 ≠ Player.EMPTY) :
    (Game.is_mcts wm = true →
      (runMoves wm bm evs).whiteTree = (runMoves wm bm evs).history) ∧
    (Game.is_mcts bm = true →
      (runMoves wm bm evs).blackTree = (runMoves wm bm evs).history) := by
  have h := runMoves_sync_aux wm bm evs hevs ⟨[], [], []⟩
  exact ⟨fun hw => h.1 hw rfl, fun hb => h.2 hb rfl⟩

theorem C3_mcts_trees_synchronized_witness :
    (runMoves .MCTS_QUICK .HUMAN
        [(Player.WHITE, 0), (Player.BLACK, 1)]).whiteTree
      = (runMoves .MCTS_QUICK .HUMAN
        [(Player.WHITE, 0), (Player.BLACK, 1)]).history :=
  (C3_mcts_trees_synchronized .MCTS_QUICK .HUMAN _ (by decide)).1 rfl

/-- The mutable selection context of `Game.handle_human_moves`:
`available_moves` (recomputed from the unchanged game state each frame),
`selected_piece` and `selected_moves`. -/
structure HumanCtx where
  avail : List Move
  selectedPiece : Option (Int × Int)
  selectedMoves : List Move
deriving DecidableEq, Repr

/-- An input event processed by `Game.handle_human_moves`: pressing Enter or
clicking the board cell `(r, c)`. -/
inductive HumanEv where
  | pressEnter
  | click (r c : Int)
deriving DecidableEq, Repr

/-- The filter applied at `game.py` lines 575–589: a MotionMove matching the
selected origin and the clicked destination. -/
def matchesSelection (sel : Option (Int × Int)) (r c : Int) (m : Move) : Bool :=
  match m with
  | .pass => false
  | .motion mm =>
      sel == some (mm.row_origin, mm.col_origin) &&
        (r, c) == (mm.row_destination, mm.col_destination)

/-- `Game.handle_human_moves` (`game.py` lines 517–601), restricted to its
move-selection logic: Enter executes a Pass only if `PassMove()` is in
`available_moves`; clicking an own piece selects it; clicking an empty cell
filters `available_moves` by selected origin and clicked destination,
executing the move when exactly one matches and storing the matches as
`selected_moves` otherwise; clicking any other (opponent) cell executes the
first pending candidate whose first captured cell is the clicked cell.
Returns the updated context and the executed move, if any. -/
def handle_human_moves (b : Board) (p : Player) (ctx : HumanCtx) (ev : HumanEv) :
    HumanCtx × Option Move :=
  match ev with
  | .pressEnter =>
      if Move.pass ∈ ctx.avail then
        ({ ctx with selectedMoves := [] }, some Move.pass)
      else (ctx, none)
  | .click r c =>
      if b.get r c = p then
        ({ ctx with selectedPiece := some (r, c), selectedMoves := [] }, none)
      else if b.get r c = Player.EMPTY then
        if (ctx.avail.filter (matchesSelection ctx.selectedPiece r c)).length = 1 then
          ({ ctx with selectedMoves := [] },
            (ctx.avail.filter (matchesSelection ctx.selectedPiece r c)).head?)
        else
          ({ ctx with selectedMoves :=
              ctx.avail.filter (matchesSelection ctx.selectedPiece r c) }, none)
      else
        match ctx.selectedMoves.find? (fun m => m.get_first_to_kill == some (r, c)) with
        | some mv => ({ ctx with selectedMoves := [] }, some mv)
        | none => (ctx, none)

/-- Within an uninterrupted game, where `selected_moves` was built by the
destination filter over the same state's `available_moves`, every move
`handle_human_moves` executes is a member of `available_moves`: a Pass only
when `PassMove()` is in it, a unique-match Motion from the filter, and a
disambiguating click only from the pending candidates.  (This subset premise
is exactly what the navigation-reset paths of `game.py` fail to maintain —
see the claim C6 theorem below.) -/
theorem handle_human_moves_sound_of_subset (b : Board) (p : Player) (ctx : HumanCtx)
    (ev : HumanEv) (ctx' : HumanCtx) (m : Move)
    (hsub : ∀ x ∈ ctx.selectedMoves, x ∈ ctx.avail)
    (hex : handle_human_moves b p ctx ev = (ctx', some m)) :
    m ∈ ctx.avail := by
  cases ev with
  | pressEnter =>
    by_cases hmem : Move.pass ∈ ctx.avail
    · simp only [handle_human_moves, if_pos hmem, Prod.mk.injEq,
        Option.some.injEq] at hex
      rw [← hex.2]
      exact hmem
    · simp only [handle_human_moves, if_neg hmem, Prod.mk.injEq] at hex
      exact absurd hex.2 (by simp)
  | click r c =>
    by_cases h1 : b.get r c = p
    · simp only [handle_human_moves, if_pos h1, Prod.mk.injEq] at hex
      exact absurd hex.2 (by simp)
    · by_cases h2 : b.get r c = Player.EMPTY
      · by_cases h3 :
          (ctx.avail.filter (matchesSelection ctx.selectedPiece r c)).length = 1
        · simp only [handle_human_moves, if_neg h1, if_pos h2, if_pos h3,
            Prod.mk.injEq] at hex
          have hm : m ∈ ctx.avail.filter (matchesSelection ctx.selectedPiece r c) :=
            List.mem_of_mem_head? (by rw [hex.2]; rfl)
          exact (List.mem_filter.mp hm).1
        · simp only [handle_human_moves, if_neg h1, if_pos h2, if_neg h3,
            Prod.mk.injEq] at hex
          exact absurd hex.2 (by simp)
      · cases hfind : ctx.selectedMoves.find?
            (fun x => x.get_first_to_kill == some (r, c)) with
        | some mv =>
          simp only [handle_human_moves, if_neg h1, if_neg h2, hfind,
            Prod.mk.injEq, Option.some.injEq] at hex
          rw [← hex.2]
          exact hsub mv (List.mem_of_find?_eq_some hfind)
        | none =>
          simp only [handle_human_moves, if_neg h1, if_neg h2, hfind,
            Prod.mk.injEq] at hex
          exact absurd hex.2 (by simp)

/-- Game-1 position of the failing trace for claim C6: 1×4 board
`[B, A, _, B]`, white (human) to move. -/
def staleGame1Board : Board := ⟨4, 1, [[.BLACK, .WHITE, .EMPTY, .BLACK]]⟩

/-- Game-1 state. -/
def staleGame1State : State := ⟨staleGame1Board, .WHITE, none⟩

/-- The approach candidate of the both-capture disambiguation in game 1:
A moves `(0,1) → (0,2)` capturing the B at `(0,3)` beyond the destination. -/
def staleApproachMove : Move := .motion ⟨0, 1, 0, 2, [(0, 3)], some .approach⟩

/-- The withdrawal candidate of the same disambiguation: A moves
`(0,1) → (0,2)` capturing the B at `(0,0)` behind the origin. -/
def staleWithdrawalMove : Move :=
  .motion ⟨0, 1, 0, 2, [(0, 0)], some .withdrawal⟩

/-- The fresh board of game 2, started after backing out of game 1: white
at `(0,0)`, black pieces at `(0,2)` and `(0,3)`. -/
def staleGame2Board : Board := ⟨4, 1, [[.WHITE, .EMPTY, .BLACK, .BLACK]]⟩

/-- Game-2 state, white (human) to move. -/
def staleGame2State : State := ⟨staleGame2Board, .WHITE, none⟩

/-- The handler context at the start of game 2: `available_moves` freshly
recomputed from the new state and `selected_piece` cleared by
`mode_sel_button_action` (`game.py` lines 229–240), but `selected_moves`
still holding game 1's disambiguation candidates, because neither
`back_to_black_mode_sel` (lines 182–187) nor `mode_sel_button_action`
clears it. -/
def staleCtx : HumanCtx :=
  ⟨staleGame2State.get_available_moves, none,
    [staleApproachMove, staleWithdrawalMove]⟩

/-- Claim C6 fails on the code: the claim says every move the UI executes
for a human is an element of the current available-move set, but
`selected_moves` survives the navigation reset.  Evaluated at the failing
input: in game 1 the empty-cell click at `(0,2)` stores the two capture
candidates without executing (first conjunct); after backing out to the
black-mode screen and starting game 2 — which rebuilds `available_moves`
and clears `selected_piece` but not `selected_moves` — clicking the
opponent piece at the stale first-captured cell `(0,3)` executes the stale
approach move (second conjunct), which is not a member of game 2's
available-move set (third conjunct). -/
theorem C6_stale_selected_move_executed :
    (handle_human_moves staleGame1Board .WHITE
        ⟨staleGame1State.get_available_moves, some (0, 1), []⟩ (.click 0 2))
      = (⟨staleGame1State.get_available_moves, some (0, 1),
          [staleApproachMove, staleWithdrawalMove]⟩, none) ∧
    (handle_human_moves staleGame2Board .WHITE staleCtx (.click 0 3)).2
      = some staleApproachMove ∧
    staleApproachMove ∉ staleCtx.avail := by
  decide

/-- The `WindowState` enum of `game.py`. -/
inductive WindowState where
  | BOARD_SIZE_SEL
  | WHITE_MODE_SEL
  | BLACK_MODE_SEL
  | PLAYING
  | GAME_OVER
deriving DecidableEq, Repr, Fintype

/-- `MIN_SIZE` from `game.py` line 35. -/
def MIN_SIZE : Nat := 5

/-- `MAX_SIZE` from `game.py` line 35. -/
def MAX_SIZE : Nat := 10

/-- The `(col, row)` parameters of the board-size buttons created in
`Game.__init__` (lines 134–148): all pairs with both components in
`range(MIN_SIZE, MAX_SIZE + 1)`; clicking such a button runs
`size_sel_button_action(col, row)`, which sets `width, height := col, row`. -/
def sizeButtonParams : List (Nat × Nat) :=
  (List.range' MIN_SIZE (MAX_SIZE + 1 - MIN_SIZE)).flatMap (fun col =>
    (List.range' MIN_SIZE (MAX_SIZE + 1 - MIN_SIZE)).map (fun row => (col, row)))

/-- Abstraction of the navigation-relevant fields of the `Game` object. -/
structure GameUI where
  window : WindowState
  winner : Player
  width : Option Nat
  height : Option Nat
  whiteMode : Option PlayerModes
  blackMode : Option PlayerModes
deriving DecidableEq, Repr

/-- One click processed during a main-loop iteration. -/
inductive ClickEv where
  | size (col row : Nat)
  | mode (m : PlayerModes)
  | back
deriving DecidableEq, Repr

/-- The observable result of one iteration of the `while` loop of
`Game.play` (lines 785–803): the successor UI state, how often
`check_winner` was queried this iteration, whether `Game.board` ran (so
that further moves could be processed this frame), and the dimensions
passed to the `State` constructor if one was constructed. -/
structure IterOut where
  next : GameUI
  checkWinnerCalls : Nat
  boardCalled : Bool
  constructedState : Option (Nat × Nat)
deriving Repr

/-- One iteration of `Game.play`'s main loop.  `oracle` is the value
`game_state.check_winner()` returns when queried; `ev` is the click the
frame's handler processes, if any.
  * PLAYING (lines 789–794): `winner := check_winner()`; when it is not
    `EMPTY` the window switches to GAME_OVER and the iteration continues
    without calling `board`; otherwise `board` runs (a back click there
    runs `back_to_black_mode_sel`).
  * BOARD_SIZE_SEL (`size_sel`): clicking the size button `(col, row)`
    stores the dimensions and moves to WHITE_MODE_SEL.
  * WHITE/BLACK_MODE_SEL (`mode_sel`): clicking a mode stores it and
    advances the window; choosing the black mode constructs
    `State(width, height)` (line 236); the back buttons run
    `back_to_board_size_sel` resp. `back_to_white_mode_sel`.
  * GAME_OVER (`game_over`): the back button resets everything. -/
def loopIter (ui : GameUI) (oracle : Player) (ev : Option ClickEv) : IterOut :=
  match ui.window with
  | .PLAYING =>
      if oracle ≠ .EMPTY then
        ⟨{ ui with winner := oracle, window := .GAME_OVER }, 1, false, none⟩
      else
        match ev with
        | some .back =>
            ⟨{ ui with
                winner := oracle
                blackMode := none
                window := .BLACK_MODE_SEL }, 1, true, none⟩
        | _ => ⟨{ ui with winner := oracle }, 1, true, none⟩
  | .BOARD_SIZE_SEL =>
      match ev with
      | some (.size col row) =>
          if (col, row) ∈ sizeButtonParams then
            ⟨{ ui with
                width := some col
                height := some row
                window := .WHITE_MODE_SEL }, 0, false, none⟩
          else ⟨ui, 0, false, none⟩
      | _ => ⟨ui, 0, false, none⟩
  | .WHITE_MODE_SEL =>
      match ev with
      | some (.mode m) =>
          ⟨{ ui with whiteMode := some m, window := .BLACK_MODE_SEL },
            0, false, none⟩
      | some .back =>
          ⟨{ ui with
              width := none
              height := none
              window := .BOARD_SIZE_SEL }, 0, false, none⟩
      | _ => ⟨ui, 0, false, none⟩
  | .BLACK_MODE_SEL =>
      match ev with
      | some (.mode m) =>
          ⟨{ ui with blackMode := some m, window := .PLAYING }, 0, false,
            match ui.width, ui.height with
            | some w, some h => some (w, h)
            | _, _ => none⟩
      | some .back =>
          ⟨{ ui with whiteMode := none, window := .WHITE_MODE_SEL },
            0, false, none⟩
      | _ => ⟨ui, 0, false, none⟩
  | .GAME_OVER =>
      match ev with
      | some .back =>
          ⟨⟨.BOARD_SIZE_SEL, .EMPTY, none, none, none, none⟩, 0, false, none⟩
      | _ => ⟨ui, 0, false, none⟩

/-- The `Game` object right after `__init__` (lines 100–174). -/
def initUI : GameUI := ⟨.BOARD_SIZE_SEL, .EMPTY, none, none, none, none⟩

/-- UI states reachable from program start through main-loop iterations. -/
inductive ReachUI : GameUI → Prop where
  | init : ReachUI initUI
  | step {ui : GameUI} (oracle : Player) (ev : Option ClickEv) :
      ReachUI ui → ReachUI (loopIter ui oracle ev).next

/-- Navigation invariant: away from the size-selection screen the chosen
dimensions are set and within bounds, and on the game-over screen the
stored winner is a real side. -/
def UIInv (ui : GameUI) : Prop :=
  (ui.window ≠ .BOARD_SIZE_SEL →
    ∃ w h, ui.width = some w ∧ ui.height = some h ∧
      MIN_SIZE ≤ w ∧ w ≤ MAX_SIZE ∧ MIN_SIZE ≤ h ∧ h ≤ MAX_SIZE) ∧
  (ui.window = .GAME_OVER → ui.winner ≠ .EMPTY)

theorem sizeButtonParams_bounds :
    ∀ p ∈ sizeButtonParams, MIN_SIZE ≤ p.1 ∧ p.1 ≤ MAX_SIZE ∧
      MIN_SIZE ≤ p.2 ∧ p.2 ≤ MAX_SIZE := by
  decide

theorem UIInv_step (ui : GameUI) (oracle : Player) (ev : Option ClickEv)
    (h : UIInv ui) : UIInv (loopIter ui oracle ev).next := by
  obtain ⟨hwh, hwin⟩ := h
  unfold loopIter
  cases hw : ui.window
  case PLAYING =>
    have hdims := hwh (by rw [hw]; intro hx; cases hx)
    dsimp only
    split
    case isTrue hor => exact ⟨fun _ => hdims, fun _ => hor⟩
    case isFalse hor =>
      split
      · exact ⟨fun _ => hdims, fun hx => by cases hx⟩
      · exact ⟨fun _ => hdims, fun hx => by dsimp only at hx; cases hx⟩
  case BOARD_SIZE_SEL =>
    dsimp only
    split
    case h_1 col row =>
      split
      case isTrue hmem =>
        have hb := sizeButtonParams_bounds _ hmem
        exact ⟨fun _ => ⟨col, row, rfl, rfl, hb.1, hb.2.1, hb.2.2.1, hb.2.2.2⟩,
          fun hx => by cases hx⟩
      case isFalse => exact ⟨hwh, hwin⟩
    case h_2 => exact ⟨hwh, hwin⟩
  case WHITE_MODE_SEL =>
    have hdims := hwh (by rw [hw]; intro hx; cases hx)
    dsimp only
    split
    · exact ⟨fun _ => hdims, fun hx => by cases hx⟩
    · exact ⟨fun hx => absurd rfl hx, fun hx => by cases hx⟩
    · exact ⟨hwh, hwin⟩
  case BLACK_MODE_SEL =>
    have hdims := hwh (by rw [hw]; intro hx; cases hx)
    dsimp only
    split
    · exact ⟨fun _ => hdims, fun hx => by cases hx⟩
    · exact ⟨fun _ => hdims, fun hx => by cases hx⟩
    · exact ⟨hwh, hwin⟩
  case GAME_OVER =>
    dsimp only
    split
    · exact ⟨fun hx => absurd rfl hx, fun hx => by cases hx⟩
    · exact ⟨hwh, hwin⟩

theorem reachUI_inv {ui : GameUI} (h : ReachUI ui) : UIInv ui := by
  induction h with
  | init => exact ⟨fun hx => absurd rfl hx, fun hx => by cases hx⟩
  | step oracle ev hr ih => exact UIInv_step _ oracle ev ih

/-- Claim C5: every `(width, height)` pair the size-selection screen can set
lies within `MIN_SIZE = 5` and `MAX_SIZE = 10`, and hence every pair ever
passed to the `State` constructor by the mode-selection handler in any
reachable UI state is within those bounds — out-of-bounds dimensions are
rejected at the boundary, before a `State` is constructed. -/
theorem C5_board_size_bounds :
    (∀ p ∈ sizeButtonParams, MIN_SIZE ≤ p.1 ∧ p.1 ≤ MAX_SIZE ∧
      MIN_SIZE ≤ p.2 ∧ p.2 ≤ MAX_SIZE) ∧
    ∀ (ui : GameUI) (oracle : Player) (ev : Option ClickEv) (w h : Nat),
      ReachUI ui → (loopIter ui oracle ev).constructedState = some (w, h) →
      MIN_SIZE ≤ w ∧ w ≤ MAX_SIZE ∧ MIN_SIZE ≤ h ∧ h ≤ MAX_SIZE := by
  refine ⟨sizeButtonParams_bounds, ?_⟩
  intro ui oracle ev w h hreach hcs
  have hinv := reachUI_inv hreach
  unfold loopIter at hcs
  split at hcs
  case h_1 hw =>
    try dsimp only at hcs
    split at hcs <;> try dsimp only at hcs
    · cases hcs
    · split at hcs <;> cases hcs
  case h_2 hw =>
    try dsimp only at hcs
    split at hcs <;> try dsimp only at hcs
    case h_1 =>
      split at hcs <;> try dsimp only at hcs <;> cases hcs
    case h_2 => cases hcs
  case h_3 hw =>
    try dsimp only at hcs
    split at hcs <;> try dsimp only at hcs <;> cases hcs
  case h_4 hw =>
    try dsimp only at hcs
    split at hcs <;> try dsimp only at hcs
    case h_1 =>
      obtain ⟨w0, h0, hww, hhh, hb⟩ := hinv.1 (by rw [hw]; intro hx; cases hx)
      split at hcs
      case h_1 w1 h1 hw1 hh1 =>
        rw [hww] at hw1
        rw [hhh] at hh1
        cases hw1
        cases hh1
        cases hcs
        exact hb
      case h_2 => cases hcs
    case h_2 => cases hcs
    case h_3 => cases hcs
  case h_5 hw =>
    try dsimp only at hcs
    split at hcs <;> cases hcs

theorem C5_board_size_bounds_witness :
    ((5, 5) ∈ sizeButtonParams ∧ MIN_SIZE ≤ 5 ∧ 5 ≤ MAX_SIZE) ∧
      (MIN_SIZE ≤ 5 ∧ 5 ≤ MAX_SIZE ∧ MIN_SIZE ≤ 5 ∧ 5 ≤ MAX_SIZE) :=
  ⟨⟨by decide, (C5_board_size_bounds.1 (5, 5) (by decide)).1,
      (C5_board_size_bounds.1 (5, 5) (by decide)).2.1⟩,
    C5_board_size_bounds.2
      (loopIter (loopIter initUI .EMPTY (some (.size 5 5))).next .EMPTY
        (some (.mode .HUMAN))).next
      .EMPTY (some (.mode .HUMAN)) 5 5
      (ReachUI.step .EMPTY (some (.mode .HUMAN))
        (ReachUI.step .EMPTY (some (.size 5 5)) ReachUI.init))
      rfl⟩

/-- Claim C7: while the window is in the PLAYING state, `check_winner` is
queried exactly once per iteration of the main loop, and whenever it
returns a non-EMPTY player the window moves to GAME_OVER without running
`Game.board` (so no further move is processed on that frame). -/
theorem C7_check_winner_once_per_frame (ui : GameUI) (oracle : Player)
    (ev : Option ClickEv) (h : ui.window = .PLAYING) :
    (loopIter ui oracle ev).checkWinnerCalls = 1 ∧
      (oracle ≠ .EMPTY → (loopIter ui oracle ev).next.window = .GAME_OVER ∧
        (loopIter ui oracle ev).boardCalled = false) := by
  unfold loopIter
  rw [h]
  dsimp only
  split
  case isTrue hor => exact ⟨rfl, fun _ => ⟨rfl, rfl⟩⟩
  case isFalse hor =>
    refine ⟨?_, fun hco => absurd hco hor⟩
    split <;> rfl

/-- A UI state sitting on the playing screen. -/
def demoPlayingUI : GameUI :=
  ⟨.PLAYING, .EMPTY, some 5, some 5, some .HUMAN, some .HUMAN⟩

theorem C7_check_winner_once_per_frame_witness :
    (loopIter demoPlayingUI .WHITE none).checkWinnerCalls = 1 ∧
      (loopIter demoPlayingUI .WHITE none).next.window = .GAME_OVER ∧
      (loopIter demoPlayingUI .WHITE none).boardCalled = false :=
  ⟨(C7_check_winner_once_per_frame demoPlayingUI .WHITE none rfl).1,
    (C7_check_winner_once_per_frame demoPlayingUI .WHITE none rfl).2
      (by decide)⟩

/-- `Game.get_winner_text` (lines 739–745); only the rendered string is
modelled. -/
def get_winner_text (winner : Player) : String :=
  if winner = .BLACK then "Pretas vencem!"
  else if winner = .WHITE then "Brancas vencem!"
  else "Empate!"

/-- Claim C10: the draw branch of `get_winner_text` is unreachable from the
main loop — the window enters GAME_OVER only when `check_winner` returned a
non-EMPTY player, so in every reachable game-over UI state the rendered
text is a win announcement, never "Empate!". -/
theorem C10_no_draw_text (ui : GameUI) (h : ReachUI ui)
    (hg : ui.window = .GAME_OVER) :
    get_winner_text ui.winner ≠ "Empate!" := by
  have hinv := (reachUI_inv h).2 hg
  unfold get_winner_text
  cases hcw : ui.winner
  · exact absurd hcw hinv
  · decide
  · decide

/-- The game-over UI state reached by: size 5×5, white human, black human,
then a playing frame whose `check_winner` returns WHITE. -/
def demoGameOverUI : GameUI :=
  (loopIter (loopIter (loopIter (loopIter initUI .EMPTY
    (some (.size 5 5))).next .EMPTY (some (.mode .HUMAN))).next .EMPTY
    (some (.mode .HUMAN))).next .WHITE none).next

theorem demoGameOverUI_reach : ReachUI demoGameOverUI :=
  ReachUI.step .WHITE none
    (ReachUI.step .EMPTY (some (.mode .HUMAN))
      (ReachUI.step .EMPTY (some (.mode .HUMAN))
        (ReachUI.step .EMPTY (some (.size 5 5)) ReachUI.init)))

theorem C10_no_draw_text_witness :
    get_winner_text demoGameOverUI.winner ≠ "Empate!" :=
  C10_no_draw_text demoGameOverUI demoGameOverUI_reach rfl
